import Mathlib

/-!
# Verification of `deferred_printf` (jrmwng/deferred-printf)

Shallow embedding of `src/include/deferred_printf.h` and
`src/src/deferred_printf.cpp` into Lean 4.

The C++ library stores type-erased printf-call records back-to-back in a
fixed-capacity byte arena (`deferred_printf_logger`), each record carrying a
virtual `size()` and `apply()` (class `Cdeferred_printf_log<Ttokens...>`), and
walks the arena with an iterator that advances by the current record's size
(`deferred_printf_log_iterator::operator++`).  The driver
`deferred_printf::apply` sums the non-negative callback results.

Modelling choices (each definition is annotated with the source symbol it
embeds):
* a captured argument value (one element of the `Ttokens...` tuple) becomes a
  `Tok`; its C++ static type becomes a `TokTy` with the x86-64 size/alignment
  of that type;
* `sizeof(Cdeferred_printf_log<Ttokens...>)` is computed by the standard
  struct-layout algorithm over the vtable pointer, the stored format pointer
  and the token fields;
* the arena's raw byte buffer becomes a partial map `Nat → Option Rec` from
  byte offsets to the record objects placement-new'ed there; uninitialised
  bytes read as `none` (reading them in C++ would be undefined behaviour);
* throwing `std::bad_alloc` becomes returning the unchanged arena paired with
  `some LogError.badAlloc`;
* the iterator `for`-loop becomes the fuel-based `walk`, which returns `none`
  exactly in the situations that are undefined behaviour in C++ (dereferencing
  a position no record was constructed at, or never hitting `end()`).
-/

namespace DeferredPrintf

/-- The C++ static type of one captured token (one element of `Ttokens...` in
`Cdeferred_printf_log<Ttokens...>`).  `tOwned` stands for a class-type argument
such as a by-value `std::string`: `deferred_printf_logger::log` deduces
`Ttokens` from the arguments, so such a type can be deduced, and it is the one
case that is not trivially destructible. -/
inductive TokTy
  | tChar
  | tShort
  | tUShort
  | tInt
  | tUInt
  | tLong
  | tULong
  | tFloat
  | tDouble
  | tLongDouble
  | tStr
  | tPtr
  | tOwned
  deriving DecidableEq, Repr

/-- `sizeof` of the token's C++ type on x86-64. -/
def TokTy.size : TokTy → Nat
  | .tChar => 1
  | .tShort => 2
  | .tUShort => 2
  | .tInt => 4
  | .tUInt => 4
  | .tLong => 8
  | .tULong => 8
  | .tFloat => 4
  | .tDouble => 8
  | .tLongDouble => 16
  | .tStr => 8
  | .tPtr => 8
  | .tOwned => 32

/-- `alignof` of the token's C++ type on x86-64. -/
def TokTy.align : TokTy → Nat
  | .tChar => 1
  | .tShort => 2
  | .tUShort => 2
  | .tInt => 4
  | .tUInt => 4
  | .tLong => 8
  | .tULong => 8
  | .tFloat => 4
  | .tDouble => 8
  | .tLongDouble => 16
  | .tStr => 8
  | .tPtr => 8
  | .tOwned => 8

/-- `std::is_trivially_destructible_v` for the token's C++ type, as tested by
the `static_assert` in `deferred_printf_logger::log`.  All scalar and pointer
tokens are trivially destructible; an owned class-type payload is not. -/
def TokTy.trivially_destructible : TokTy → Bool
  | .tOwned => false
  | _ => true

/-- One captured argument value, stored by value in the record's
`std::tuple<Ttokens...>` (`Cdeferred_printf_log::m_tupleToken`).  Floating
point values are carried as their bit patterns: the library never computes
with them, it only stores and forwards them. -/
inductive Tok
  | vChar (c : Nat)
  | vShort (v : Int)
  | vUShort (v : Nat)
  | vInt (v : Int)
  | vUInt (v : Nat)
  | vLong (v : Int)
  | vULong (v : Nat)
  | vFloat (bits : Nat)
  | vDouble (bits : Nat)
  | vLongDouble (bits : Nat)
  | vStr (s : String)
  | vPtr (addr : Nat)
  | vOwned (s : String)
  deriving DecidableEq, Repr

/-- The static type a token value was captured at. -/
def Tok.ty : Tok → TokTy
  | .vChar _ => .tChar
  | .vShort _ => .tShort
  | .vUShort _ => .tUShort
  | .vInt _ => .tInt
  | .vUInt _ => .tUInt
  | .vLong _ => .tLong
  | .vULong _ => .tULong
  | .vFloat _ => .tFloat
  | .vDouble _ => .tDouble
  | .vLongDouble _ => .tLongDouble
  | .vStr _ => .tStr
  | .vPtr _ => .tPtr
  | .vOwned _ => .tOwned

/-- Round `n` up to the next multiple of the alignment `a`. -/
def alignUp (n a : Nat) : Nat := ((n + a - 1) / a) * a

/-- Lay the fields of the given types out sequentially, starting at byte
offset `off` with accumulated maximal alignment `al`; return the end offset
and the struct's alignment.  This is the standard C++ (Itanium ABI)
struct-layout computation. -/
def layoutFields : List TokTy → Nat → Nat → Nat × Nat
  | [], off, al => (off, al)
  | t :: ts, off, al => layoutFields ts (alignUp off t.align + t.size) (max al t.align)

/-- `sizeof(Cdeferred_printf_log<char const *, Ttokens...>)`: the vtable
pointer (8 bytes, alignment 8) and the stored format pointer (8 bytes,
alignment 8) occupy offsets 0 and 8, the token fields follow, and the total is
padded to the struct's alignment. -/
def sizeofLog (tys : List TokTy) : Nat :=
  let r := layoutFields tys 16 8
  alignUp r.1 r.2

/-- One deferred record: `Cdeferred_printf_log<char const *, Ttokens...>`,
created by `deferred_printf::operator()(pcFormat, tArgs...)`.  `fmt` is the
format string the stored `char const *` points at (the arena stores only the
pointer; the characters are assumed to outlive the record) and `args` are the
argument values captured by value. -/
structure Rec where
  fmt : String
  args : List Tok
  deriving DecidableEq, Repr

/-- The element types of the record's `std::tuple` — the stored format pointer
followed by the captured argument types.  This is the tuple whose trivial
destructibility `deferred_printf_logger::log` statically asserts. -/
def Rec.tokenTypes (r : Rec) : List TokTy := .tStr :: r.args.map Tok.ty

/-- `Cdeferred_printf_log::size()`: returns
`sizeof(Cdeferred_printf_log<Ttokens...>)` for the record's own concrete
type — a function of the token type signature only. -/
def Rec.size (r : Rec) : Nat := sizeofLog (r.args.map Tok.ty)

/-- `Cdeferred_printf_log::apply(fnVprintf)`: `std::apply` unpacks the stored
tuple positionally into `vprintf_wrapper::operator()`, which starts a
`va_list` over the argument values and invokes the callback with the stored
format pointer and that list.  `cb` stands for the caller's vprintf-like
callback; its result type is kept generic so the same embedding serves the
`int`-returning callback and a test harness observing the formatted text. -/
def recApply {α : Type} (r : Rec) (cb : String → List Tok → α) : α := cb r.fmt r.args

/-- The error signalled by `deferred_printf_logger::log` when the record does
not fit: `throw std::bad_alloc()`. -/
inductive LogError
  | badAlloc
  deriving DecidableEq, Repr

/-- The arena `deferred_printf_logger<zuCAPACITY>`: a fixed capacity
`zuCAPACITY`, the write offset `m_zuLength`, and the raw buffer `m_buffer`
modelled as a map from byte offsets to the record objects placement-new'ed at
them (`none` where no record object starts). -/
structure Arena where
  capacity : Nat
  length : Nat
  mem : Nat → Option Rec

/-- `deferred_printf_logger::deferred_printf_logger()`: write offset 0, no
records constructed anywhere in the buffer. -/
def emptyArena (cap : Nat) : Arena := ⟨cap, 0, fun _ => none⟩

/-- `deferred_printf_logger::log(tTokens...)`: if
`m_zuLength + sizeof(Tlog) <= zuCAPACITY`, placement-new the record at offset
`m_zuLength` and advance the offset by `sizeof(Tlog)`; otherwise
`throw std::bad_alloc()`, leaving the arena untouched. -/
def logRec (a : Arena) (r : Rec) : Arena × Option LogError :=
  if a.length + r.size ≤ a.capacity then
    ({ capacity := a.capacity
       length := a.length + r.size
       mem := fun o => if o = a.length then some r else a.mem o }, none)
  else
    (a, some .badAlloc)

/-- Run a sequence of `log` calls, failing if any one throws. -/
def logAll : Arena → List Rec → Option Arena
  | a, [] => some a
  | a, r :: rs =>
    match logRec a r with
    | (a', none) => logAll a' rs
    | (_, some _) => none

/-- An arena freshly constructed with capacity `cap` on which exactly the
record calls `rs` were made, all successfully. -/
def buildArena (cap : Nat) (rs : List Rec) : Option Arena :=
  logAll (emptyArena cap) rs

/-- `deferred_printf_logger::begin()`: an iterator at `m_buffer.data()`,
i.e. byte offset 0. -/
def beginCursor (_ : Arena) : Nat := 0

/-- `deferred_printf_logger::end()`: an iterator at
`m_buffer.data() + m_zuLength`, i.e. byte offset `m_zuLength`. -/
def endCursor (a : Arena) : Nat := a.length

/-- `deferred_printf_log_iterator::operator++`: read the record at the cursor
and advance the cursor by that record's `size()`.  `none` models the undefined
behaviour of dereferencing a position no record was constructed at. -/
def iterNext (mem : Nat → Option Rec) (cursor : Nat) : Option Nat :=
  (mem cursor).map (fun r => cursor + r.size)

/-- The iterator `for`-loop `for (iLog : logger) { ... }`: starting at
`cursor`, while `cursor != target` (`operator!=` compares buffer pointers)
dereference the current record and advance by its `size()`; collect the
records visited, in order.  The fuel bounds the number of steps; `none` models
the undefined behaviour of dereferencing unconstructed bytes or of a cursor
that never compares equal to `end()`. -/
def walk (mem : Nat → Option Rec) : Nat → Nat → Nat → Option (List Rec)
  | cursor, target, 0 => if cursor = target then some [] else none
  | cursor, target, fuel + 1 =>
    if cursor = target then some []
    else
      match mem cursor with
      | none => none
      | some r => (walk mem (cursor + r.size) target fuel).map (fun l => r :: l)

/-- The sequence of records a full `begin()`-to-`end()` traversal of the arena
visits.  `a.length + 1` steps always suffice because every record is at least
one byte. -/
def arenaRecords (a : Arena) : Option (List Rec) :=
  walk a.mem (beginCursor a) (endCursor a) (a.length + 1)

/-- A `begin()`-to-`end()` traversal that invokes `cb` on each record via the
record's `apply` and collects the results in visit order. -/
def replayResults {α : Type} (a : Arena) (cb : String → List Tok → α) : Option (List α) :=
  (arenaRecords a).map (fun rs => rs.map (fun r => recApply r cb))

/-- The accumulation loop of `deferred_printf::apply`: for each record,
`nCount = iLog.apply(fnCallback)`; if `nCount < 0` the body is the empty
`TODO` branch (the result is discarded), otherwise `nSum += nCount`. -/
def applyLoop (cb : String → List Tok → Int) : Int → List Rec → Int
  | nSum, [] => nSum
  | nSum, r :: rs =>
    let nCount := recApply r cb
    if nCount < 0 then applyLoop cb nSum rs
    else applyLoop cb (nSum + nCount) rs

/-- `deferred_printf::apply(fnCallback)`: walk every record from `begin()` to
`end()` and return the sum of the non-negative callback results. -/
def deferredApply (a : Arena) (cb : String → List Tok → Int) : Option Int :=
  (arenaRecords a).map (applyLoop cb 0)

/-- The accumulation loop of `deferred_printf::apply` with its error channel
made explicit: the second component collects the failures the loop reports.
The `nCount < 0` branch of the source is the empty `TODO` comment, so no
iteration ever adds to it. -/
def applyLoopReported (cb : String → List Tok → Int) :
    Int × List Int → List Rec → Int × List Int
  | (nSum, reported), [] => (nSum, reported)
  | (nSum, reported), r :: rs =>
    let nCount := recApply r cb
    if nCount < 0 then applyLoopReported cb (nSum, reported) rs
    else applyLoopReported cb (nSum + nCount, reported) rs

/-- `deferred_printf::apply` with the reported-failure channel. -/
def deferredApplyReported (a : Arena) (cb : String → List Tok → Int) :
    Option (Int × List Int) :=
  (arenaRecords a).map (applyLoopReported cb (0, []))

/-- The curried overload
`deferred_printf::apply(pfnVprintf, tParams...)`: build the closure
`fnVprintf = [pfnVprintf, tParams...](pcFormat, vaArgs) {
  return pfnVprintf(tParams..., pcFormat, vaArgs); }`
and delegate to the plain `apply(fnVprintf)`.  `P` stands for the bound
parameter pack `Tparams...` (a single Lean value can be a tuple). -/
def deferredApplyCurried {P : Type} (a : Arena)
    (pfn : P → String → List Tok → Int) (p : P) : Option Int :=
  let fnVprintf : String → List Tok → Int := fun pcFormat vaArgs => pfn p pcFormat vaArgs
  deferredApply a fnVprintf

/-- Calling the `const noexcept` method `deferred_printf::apply` as a state
transformer: it produces its result and leaves the arena state as it was
(the method cannot mutate the logger). -/
def applyConst (a : Arena) (cb : String → List Tok → Int) : Option Int × Arena :=
  (deferredApply a cb, a)

/-- `deferred_printf_logger::bSKIP_DESTRUCTION`: the policy constant of the
source, `constexpr static bool bSKIP_DESTRUCTION = true`. -/
def bSKIP_DESTRUCTION : Bool := true

/-- The `static_assert` in `deferred_printf_logger::log`:
`(!bSKIP_DESTRUCTION) || std::is_trivially_destructible_v<std::tuple<Ttokens...>>`.
A `std::tuple` is trivially destructible iff all its element types are. -/
def logStaticAssert (skip : Bool) (tys : List TokTy) : Bool :=
  !skip || tys.all TokTy.trivially_destructible

/-- `~deferred_printf_logger()`: the list of records on which
`iLog.~Ideferred_printf_log()` is invoked, in iteration order — none when
`bSKIP_DESTRUCTION` holds, every record from `begin()` to `end()` otherwise. -/
def destructorTeardown (skip : Bool) (a : Arena) : Option (List Rec) :=
  if skip then some [] else arenaRecords a

/-- Offsets at which the records of `rs` are constructed when appended
back-to-back starting at byte offset `b`, paired with the records. -/
def chunks : Nat → List Rec → List (Nat × Rec)
  | _, [] => []
  | b, r :: rs => (b, r) :: chunks (b + r.size) rs

/-- Total footprint of a record sequence. -/
def sumSizes (rs : List Rec) : Nat := (rs.map Rec.size).sum

/-! ## Basic facts about record sizes -/

theorem alignUp_ge (n a : Nat) (ha : 0 < a) : n ≤ alignUp n a := by
  unfold alignUp
  rw [Nat.mul_comm]
  have hmod := Nat.div_add_mod (n + a - 1) a
  have hlt : (n + a - 1) % a < a := Nat.mod_lt _ ha
  omega

theorem TokTy.align_pos (t : TokTy) : 0 < t.align := by
  cases t <;> decide

theorem layoutFields_fst_ge (ts : List TokTy) :
    ∀ off al, off ≤ (layoutFields ts off al).1 := by
  induction ts with
  | nil => intro off al; exact Nat.le_refl _
  | cons t ts ih =>
    intro off al
    calc off ≤ alignUp off t.align := alignUp_ge _ _ (TokTy.align_pos t)
    _ ≤ alignUp off t.align + t.size := Nat.le_add_right _ _
    _ ≤ (layoutFields ts (alignUp off t.align + t.size) (max al t.align)).1 := ih _ _

theorem layoutFields_snd_ge (ts : List TokTy) :
    ∀ off al, al ≤ (layoutFields ts off al).2 := by
  induction ts with
  | nil => intro off al; exact Nat.le_refl _
  | cons t ts ih =>
    intro off al
    exact Nat.le_trans (Nat.le_max_left al t.align) (ih _ _)

theorem sizeofLog_ge (tys : List TokTy) : 16 ≤ sizeofLog tys := by
  have h1 : 16 ≤ (layoutFields tys 16 8).1 := layoutFields_fst_ge tys 16 8
  have h2 : 8 ≤ (layoutFields tys 16 8).2 := layoutFields_snd_ge tys 16 8
  have h3 : (layoutFields tys 16 8).1 ≤
      alignUp (layoutFields tys 16 8).1 (layoutFields tys 16 8).2 :=
    alignUp_ge _ _ (by omega)
  show 16 ≤ alignUp (layoutFields tys 16 8).1 (layoutFields tys 16 8).2
  omega

theorem Rec.size_pos (r : Rec) : 0 < r.size := by
  have := sizeofLog_ge (r.args.map Tok.ty)
  unfold Rec.size
  omega

theorem sumSizes_nil : sumSizes [] = 0 := rfl

theorem sumSizes_cons (r : Rec) (rs : List Rec) :
    sumSizes (r :: rs) = r.size + sumSizes rs := by
  simp [sumSizes]

theorem length_le_sumSizes (rs : List Rec) : rs.length ≤ sumSizes rs := by
  induction rs with
  | nil => simp [sumSizes_nil]
  | cons r rs ih =>
    rw [sumSizes_cons]
    have := r.size_pos
    simp only [List.length_cons]
    omega

/-! ## Characterization of arenas built by successful `log` calls -/

/-- What a successful sequence of `log` calls leaves behind: capacity is
untouched, the write offset has advanced by exactly the sum of the record
sizes and stays within capacity, previously written memory is untouched, and
each logged record sits at its back-to-back offset. -/
theorem logAll_spec (rs : List Rec) : ∀ (a a' : Arena),
    a.length ≤ a.capacity →
    logAll a rs = some a' →
    a'.capacity = a.capacity ∧
    a'.length = a.length + sumSizes rs ∧
    a'.length ≤ a'.capacity ∧
    (∀ o, o < a.length → a'.mem o = a.mem o) ∧
    (∀ p ∈ chunks a.length rs, a'.mem p.1 = some p.2) := by
  induction rs with
  | nil =>
    intro a a' hcap h
    simp only [logAll, Option.some.injEq] at h
    subst h
    refine ⟨rfl, by simp [sumSizes_nil], hcap, fun o _ => rfl, ?_⟩
    intro p hp
    simp [chunks] at hp
  | cons r rs ih =>
    intro a a' hcap h
    simp only [logAll, logRec] at h
    by_cases hfit : a.length + r.size ≤ a.capacity
    · rw [if_pos hfit] at h
      set a₁ : Arena :=
        { capacity := a.capacity
          length := a.length + r.size
          mem := fun o => if o = a.length then some r else a.mem o } with ha₁
      have h₁ : logAll a₁ rs = some a' := h
      have hcap₁ : a₁.length ≤ a₁.capacity := hfit
      obtain ⟨hc, hl, hlc, hpres, hchunks⟩ := ih a₁ a' hcap₁ h₁
      refine ⟨hc, ?_, hlc, ?_, ?_⟩
      · rw [hl, sumSizes_cons]
        show a.length + r.size + sumSizes rs = a.length + (r.size + sumSizes rs)
        omega
      · intro o ho
        have : o < a₁.length := by
          have := r.size_pos
          show o < a.length + r.size
          omega
        rw [hpres o this]
        show (if o = a.length then some r else a.mem o) = a.mem o
        rw [if_neg (by omega)]
      · intro p hp
        simp only [chunks, List.mem_cons] at hp
        rcases hp with hp | hp
        · subst hp
          have hlt : a.length < a₁.length := by
            have := r.size_pos
            show a.length < a.length + r.size
            omega
          rw [hpres a.length hlt]
          show (if a.length = a.length then some r else a.mem a.length) = some r
          rw [if_pos rfl]
        · exact hchunks p hp
    · rw [if_neg hfit] at h
      exact absurd h (by simp)

/-- The iterator walk over back-to-back records: if every record of `rs` is
constructed at its `chunks` offset, walking from the first offset to the end
offset visits exactly `rs`, in order. -/
theorem walk_chunks (rs : List Rec) : ∀ (mem : Nat → Option Rec) (b fuel : Nat),
    rs.length ≤ fuel →
    (∀ p ∈ chunks b rs, mem p.1 = some p.2) →
    walk mem b (b + sumSizes rs) fuel = some rs := by
  induction rs with
  | nil =>
    intro mem b fuel _ _
    rw [sumSizes_nil, Nat.add_zero]
    cases fuel <;> simp [walk]
  | cons r rs ih =>
    intro mem b fuel hfuel hmem
    cases fuel with
    | zero => simp at hfuel
    | succ f =>
      have hne : b ≠ b + sumSizes (r :: rs) := by
        rw [sumSizes_cons]
        have := r.size_pos
        omega
      have hhead : mem b = some r := hmem (b, r) (by simp [chunks])
      have htail : ∀ p ∈ chunks (b + r.size) rs, mem p.1 = some p.2 := by
        intro p hp
        exact hmem p (by simp [chunks, hp])
      have hrec : walk mem (b + r.size) (b + sumSizes (r :: rs)) f = some rs := by
        have : b + sumSizes (r :: rs) = (b + r.size) + sumSizes rs := by
          rw [sumSizes_cons]; omega
        rw [this]
        exact ih mem (b + r.size) f (by simpa using Nat.lt_succ_iff.mp (Nat.lt_of_lt_of_le (Nat.lt_succ_of_le (Nat.le_refl _)) hfuel)) htail
      simp only [walk, if_neg hne, hhead, hrec, Option.map_some']

/-- An arena built from scratch by successful `log` calls replays exactly the
logged records, in order. -/
theorem buildArena_records (cap : Nat) (rs : List Rec) (a : Arena)
    (h : buildArena cap rs = some a) : arenaRecords a = some rs := by
  obtain ⟨hc, hl, _, _, hchunks⟩ :=
    logAll_spec rs (emptyArena cap) a (Nat.zero_le _) h
  have hlen : a.length = sumSizes rs := by
    simpa [emptyArena] using hl
  have hfuel : rs.length ≤ a.length + 1 := by
    have := length_le_sumSizes rs
    omega
  have hmem : ∀ p ∈ chunks 0 rs, a.mem p.1 = some p.2 := by
    simpa [emptyArena] using hchunks
  unfold arenaRecords beginCursor endCursor
  have := walk_chunks rs a.mem 0 (a.length + 1) hfuel hmem
  simpa [hlen] using this

/-! ## The accumulation loop of `deferred_printf::apply` -/

theorem applyLoop_eq_sum (cb : String → List Tok → Int) (rs : List Rec) :
    ∀ s, applyLoop cb s rs =
      s + (rs.map (fun r => if recApply r cb < 0 then 0 else recApply r cb)).sum := by
  induction rs with
  | nil => intro s; simp [applyLoop]
  | cons r rs ih =>
    intro s
    simp only [applyLoop, List.map_cons, List.sum_cons]
    by_cases hneg : recApply r cb < 0
    · rw [if_pos hneg, if_pos hneg, ih s]
      ring
    · rw [if_neg hneg, if_neg hneg, ih (s + recApply r cb)]
      ring

theorem applyLoopReported_eq (cb : String → List Tok → Int) (rs : List Rec) :
    ∀ s rep, applyLoopReported cb (s, rep) rs = (applyLoop cb s rs, rep) := by
  induction rs with
  | nil => intro s rep; rfl
  | cons r rs ih =>
    intro s rep
    simp only [applyLoopReported, applyLoop]
    by_cases hneg : recApply r cb < 0
    · rw [if_pos hneg, if_pos hneg, ih]
    · rw [if_neg hneg, if_neg hneg, ih]

/-! ## Containment and iterator stepping over back-to-back records -/

theorem chunks_contained (rs : List Rec) :
    ∀ b, ∀ p ∈ chunks b rs, p.1 + p.2.size ≤ b + sumSizes rs := by
  induction rs with
  | nil => intro b p hp; simp [chunks] at hp
  | cons r rs ih =>
    intro b p hp
    simp only [chunks, List.mem_cons] at hp
    rw [sumSizes_cons]
    rcases hp with hp | hp
    · subst hp
      show b + r.size ≤ b + (r.size + sumSizes rs)
      omega
    · have := ih (b + r.size) p hp
      omega

/-- The sequence of `operator++` steps through a list of records located at
the given offsets: at each position the record is readable, incrementing
advances the cursor by exactly that record's `size()`, and the cursor lands on
the next record's start offset (or on `end()` after the last record). -/
def iterSteps (mem : Nat → Option Rec) (endOff : Nat) : List (Nat × Rec) → Prop
  | [] => True
  | (o, r) :: rest =>
    mem o = some r ∧ iterNext mem o = some (o + r.size) ∧
    (match rest with
     | [] => o + r.size = endOff
     | (o', _) :: _ => o + r.size = o') ∧
    iterSteps mem endOff rest

theorem iterSteps_chunks (rs : List Rec) :
    ∀ (mem : Nat → Option Rec) (b : Nat),
    (∀ p ∈ chunks b rs, mem p.1 = some p.2) →
    iterSteps mem (b + sumSizes rs) (chunks b rs) := by
  induction rs with
  | nil => intro mem b _; simp [chunks, iterSteps]
  | cons r rs ih =>
    intro mem b hmem
    have hhead : mem b = some r := hmem (b, r) (by simp [chunks])
    have htail : ∀ p ∈ chunks (b + r.size) rs, mem p.1 = some p.2 := by
      intro p hp
      exact hmem p (by simp [chunks, hp])
    have hrec : iterSteps mem ((b + r.size) + sumSizes rs) (chunks (b + r.size) rs) :=
      ih mem (b + r.size) htail
    have hend : b + sumSizes (r :: rs) = (b + r.size) + sumSizes rs := by
      rw [sumSizes_cons]; omega
    rw [hend]
    show iterSteps mem ((b + r.size) + sumSizes rs) ((b, r) :: chunks (b + r.size) rs)
    refine ⟨hhead, by simp [iterNext, hhead], ?_, hrec⟩
    cases rs with
    | nil => simp [chunks, sumSizes_nil]
    | cons r' rs' => simp [chunks]

/-- Characterization of a successful single `log` call. -/
theorem logRec_success (a a' : Arena) (r : Rec) (h : logRec a r = (a', none)) :
    a.length + r.size ≤ a.capacity ∧
    a'.capacity = a.capacity ∧
    a'.length = a.length + r.size ∧
    a'.mem a.length = some r ∧
    (∀ o, o ≠ a.length → a'.mem o = a.mem o) := by
  unfold logRec at h
  by_cases hfit : a.length + r.size ≤ a.capacity
  · rw [if_pos hfit] at h
    injection h with h1 _
    subst h1
    refine ⟨hfit, rfl, rfl, ?_, ?_⟩
    · show (if a.length = a.length then some r else a.mem a.length) = some r
      rw [if_pos rfl]
    · intro o ho
      show (if o = a.length then some r else a.mem o) = a.mem o
      rw [if_neg ho]
  · rw [if_neg hfit] at h
    exact absurd (congrArg Prod.snd h) (by simp)

/-! ## Claims -/

/-- C2: for all sequences of `N` successful record calls on one arena, a
replay-all pass invokes the replay callback once per record, in exactly the
order the records were recorded (FIFO): the traversal visits exactly the
logged records in insertion order, and the callback-invocation trace is the
map of the callback over that sequence. -/
theorem claim_C2 {α : Type} (cap : Nat) (rs : List Rec) (a : Arena)
    (cb : String → List Tok → α)
    (h : buildArena cap rs = some a) :
    arenaRecords a = some rs ∧
    replayResults a cb = some (rs.map (fun r => recApply r cb)) := by
  have hr := buildArena_records cap rs a h
  exact ⟨hr, by simp [replayResults, hr]⟩

/-- Witness for C2: a concrete two-record arena, replayed with a callback
that records each invocation's arguments. -/
theorem claim_C2_witness :
    arenaRecords ((buildArena 64 [⟨"a %d", [Tok.vInt 1]⟩, ⟨"b", []⟩]).getD (emptyArena 64)) =
      some [⟨"a %d", [Tok.vInt 1]⟩, ⟨"b", []⟩] ∧
    replayResults ((buildArena 64 [⟨"a %d", [Tok.vInt 1]⟩, ⟨"b", []⟩]).getD (emptyArena 64))
        (fun f args => (f, args)) =
      some [("a %d", [Tok.vInt 1]), ("b", [])] :=
  claim_C2 64 [⟨"a %d", [Tok.vInt 1]⟩, ⟨"b", []⟩] _ (fun f args => (f, args)) rfl

/-- C3: recording a call and later replaying it passes the stored format
reference and the argument values (captured by value at record-creation time)
to the callback, positionally, so the replayed pass produces exactly the
texts that formatting each call immediately (no deferral) would produce. -/
theorem claim_C3 (cap : Nat) (rs : List Rec) (a : Arena)
    (format : String → List Tok → String)
    (h : buildArena cap rs = some a) :
    replayResults a format = some (rs.map (fun r => format r.fmt r.args)) := by
  simpa [replayResults, recApply] using
    congrArg (Option.map (fun l => l.map (fun r => recApply r format)))
      (buildArena_records cap rs a h)

/-- Witness for C3: replaying a concrete recorded call produces the same text
as immediate formatting. -/
theorem claim_C3_witness :
    replayResults ((buildArena 64 [⟨"Hello %d", [Tok.vInt 7]⟩]).getD (emptyArena 64))
        (fun f args => f ++ toString args.length) =
      some ["Hello %d1"] :=
  claim_C3 64 [⟨"Hello %d", [Tok.vInt 7]⟩] _ (fun f args => f ++ toString args.length) rfl

/-- C7: the curried replay-all overload, which binds the extra leading
parameters once, returns the same result as the plain replay-all form applied
to the callback that forwards the bound parameters ahead of the format/payload
pair on every invocation. -/
theorem claim_C7 {P : Type} (a : Arena) (pfn : P → String → List Tok → Int) (p : P) :
    deferredApplyCurried a pfn p =
      deferredApply a (fun pcFormat vaArgs => pfn p pcFormat vaArgs) := rfl

/-- C8: replay-all does not mutate the arena, and two independently obtained
`begin()`/`end()` passes over an unchanged arena yield identical results:
the arena coming out of a (const) apply call is the arena that went in, a
second pass over it returns the same result, and it traverses the same record
sequence. -/
theorem claim_C8 (a : Arena) (cb : String → List Tok → Int) :
    (applyConst a cb).2 = a ∧
    (applyConst (applyConst a cb).2 cb).1 = (applyConst a cb).1 ∧
    arenaRecords (applyConst a cb).2 = arenaRecords a :=
  ⟨rfl, rfl, rfl⟩

/-- C10: on a freshly constructed arena with no record call, `begin()` equals
`end()`, the traversal is empty, replay-all returns 0, and the
callback-invocation trace is empty (the callback is never invoked). -/
theorem claim_C10 (cap : Nat) (cb : String → List Tok → Int) :
    beginCursor (emptyArena cap) = endCursor (emptyArena cap) ∧
    arenaRecords (emptyArena cap) = some [] ∧
    deferredApply (emptyArena cap) cb = some 0 ∧
    replayResults (emptyArena cap) cb = some [] :=
  ⟨rfl, rfl, rfl, rfl⟩

/-- C1: a record call whose concrete record size would push the write offset
past the capacity fails with the capacity-exceeded error (`std::bad_alloc`),
leaves the arena — in particular the write offset — unchanged (nothing is
partially written), and every already-stored record remains intact and
replayable afterward. -/
theorem claim_C1 {α : Type} (cap : Nat) (rs : List Rec) (a : Arena) (r : Rec)
    (cb : String → List Tok → α)
    (hbuilt : buildArena cap rs = some a)
    (hover : a.capacity < a.length + r.size) :
    logRec a r = (a, some LogError.badAlloc) ∧
    (logRec a r).1.length = a.length ∧
    arenaRecords (logRec a r).1 = some rs ∧
    replayResults (logRec a r).1 cb = some (rs.map (fun x => recApply x cb)) := by
  have hlog : logRec a r = (a, some LogError.badAlloc) := by
    unfold logRec
    rw [if_neg (by omega)]
  have hrec := buildArena_records cap rs a hbuilt
  refine ⟨hlog, by rw [hlog], ?_, ?_⟩
  · rw [hlog]
    exact hrec
  · rw [hlog]
    simp [replayResults, hrec]

/-- Witness for C1: a 39-byte arena holding one 16-byte record rejects a
24-byte record with `bad_alloc`, and the stored record still replays. -/
theorem claim_C1_witness :
    logRec ((buildArena 39 [⟨"b", []⟩]).getD (emptyArena 39)) ⟨"a %d", [Tok.vInt 1]⟩ =
      ((buildArena 39 [⟨"b", []⟩]).getD (emptyArena 39), some LogError.badAlloc) ∧
    arenaRecords
        (logRec ((buildArena 39 [⟨"b", []⟩]).getD (emptyArena 39)) ⟨"a %d", [Tok.vInt 1]⟩).1 =
      some [⟨"b", []⟩] :=
  ⟨(claim_C1 39 [⟨"b", []⟩] _ ⟨"a %d", [Tok.vInt 1]⟩ (fun f _ => f) rfl (by decide)).1,
   (claim_C1 39 [⟨"b", []⟩] _ ⟨"a %d", [Tok.vInt 1]⟩ (fun f _ => f) rfl (by decide)).2.2.1⟩

/-- C4 (counterexample to the claim as stated): a replay callback returns a
negative result, yet the failure channel of `deferred_printf::apply` stays
empty — the `nCount < 0` branch of the source is an empty `TODO`, so the
negative result is not flagged or reported anywhere. -/
theorem claim_C4_counterexample :
    recApply (⟨"x", []⟩ : Rec) (fun _ _ => (-1 : Int)) < 0 ∧
    deferredApplyReported ((buildArena 64 [⟨"x", []⟩]).getD (emptyArena 64))
        (fun _ _ => (-1 : Int)) = some (0, []) :=
  ⟨by decide, rfl⟩

/-- C4 (amended): replay-all walks every record from `begin()` to `end()` and
returns the sum of the non-negative callback results; a negative result from
one record's callback is silently discarded — excluded from the sum and not
flagged or reported (the reporting branch is an empty `TODO`) — and does not
prevent replay of any subsequent record (the invocation trace covers every
record). -/
theorem claim_C4 (cap : Nat) (rs : List Rec) (a : Arena) (cb : String → List Tok → Int)
    (h : buildArena cap rs = some a) :
    deferredApply a cb =
      some ((rs.map (fun r => if recApply r cb < 0 then 0 else recApply r cb)).sum) ∧
    deferredApplyReported a cb =
      some ((rs.map (fun r => if recApply r cb < 0 then 0 else recApply r cb)).sum, []) ∧
    replayResults a cb = some (rs.map (fun r => recApply r cb)) := by
  have hrec := buildArena_records cap rs a h
  have h1 : applyLoop cb 0 rs =
      (rs.map (fun r => if recApply r cb < 0 then 0 else recApply r cb)).sum := by
    simpa using applyLoop_eq_sum cb rs 0
  refine ⟨?_, ?_, ?_⟩
  · simp [deferredApply, hrec, h1]
  · simp [deferredApplyReported, hrec, applyLoopReported_eq, h1]
  · simp [replayResults, hrec]

/-- Witness for the amended C4: with a callback giving `-1` on the first
record and `1` on the second, replay-all still visits both records, returns
`1`, and reports nothing. -/
theorem claim_C4_witness :
    deferredApply ((buildArena 64 [⟨"b", []⟩, ⟨"a %d", [Tok.vInt 1]⟩]).getD (emptyArena 64))
        (fun _ args => 2 * (args.length : Int) - 1) = some 1 ∧
    deferredApplyReported
        ((buildArena 64 [⟨"b", []⟩, ⟨"a %d", [Tok.vInt 1]⟩]).getD (emptyArena 64))
        (fun _ args => 2 * (args.length : Int) - 1) = some (1, []) ∧
    replayResults ((buildArena 64 [⟨"b", []⟩, ⟨"a %d", [Tok.vInt 1]⟩]).getD (emptyArena 64))
        (fun _ args => 2 * (args.length : Int) - 1) = some [-1, 1] :=
  claim_C4 64 [⟨"b", []⟩, ⟨"a %d", [Tok.vInt 1]⟩] _
    (fun _ args => 2 * (args.length : Int) - 1) rfl

/-- C5: a successful `log` advances the write offset by exactly the record's
reported `size()` and constructs the record at the old offset; and over any
built arena, incrementing an iterator positioned at a record advances the
cursor by exactly that record's `size()`, landing on the start of the next
record (or on `end()` after the last one). -/
theorem claim_C5 (a₀ : Arena) (r : Rec) (a' : Arena)
    (cap : Nat) (rs : List Rec) (a : Arena)
    (hlog : logRec a₀ r = (a', none))
    (hbuilt : buildArena cap rs = some a) :
    a'.length = a₀.length + r.size ∧
    a'.mem a₀.length = some r ∧
    iterSteps a.mem (endCursor a) (chunks 0 rs) := by
  obtain ⟨-, -, hlen, hmem, -⟩ := logRec_success a₀ a' r hlog
  refine ⟨hlen, hmem, ?_⟩
  obtain ⟨-, hl, -, -, hchunks⟩ := logAll_spec rs (emptyArena cap) a (Nat.zero_le _) hbuilt
  have hlen' : endCursor a = 0 + sumSizes rs := by
    show a.length = 0 + sumSizes rs
    simpa [emptyArena] using hl
  rw [hlen']
  exact iterSteps_chunks rs a.mem 0 (by simpa [emptyArena] using hchunks)

/-- Witness for C5: one concrete `log` call and one concrete two-record
arena. -/
theorem claim_C5_witness :
    (logRec (emptyArena 64) ⟨"b", []⟩).1.length =
      (emptyArena 64).length + Rec.size ⟨"b", []⟩ ∧
    (logRec (emptyArena 64) ⟨"b", []⟩).1.mem (emptyArena 64).length = some ⟨"b", []⟩ ∧
    iterSteps ((buildArena 64 [⟨"a %d", [Tok.vInt 1]⟩, ⟨"b", []⟩]).getD (emptyArena 64)).mem
      (endCursor ((buildArena 64 [⟨"a %d", [Tok.vInt 1]⟩, ⟨"b", []⟩]).getD (emptyArena 64)))
      (chunks 0 [⟨"a %d", [Tok.vInt 1]⟩, ⟨"b", []⟩]) :=
  claim_C5 (emptyArena 64) ⟨"b", []⟩ _ 64 [⟨"a %d", [Tok.vInt 1]⟩, ⟨"b", []⟩] _ rfl rfl

/-- C6: over any sequence of successful record calls, the write offset never
exceeds the fixed capacity, every stored record is fully contained within the
used part of the buffer (hence within the capacity), a further `log` call —
successful or not — never changes the capacity (the storage is never
reallocated), and never moves the bytes of already-stored records. -/
theorem claim_C6 (cap : Nat) (rs : List Rec) (a : Arena)
    (h : buildArena cap rs = some a) :
    a.capacity = cap ∧
    a.length ≤ a.capacity ∧
    (∀ p ∈ chunks 0 rs, p.1 + p.2.size ≤ a.length) ∧
    (∀ r, ((logRec a r).1).capacity = a.capacity) ∧
    (∀ r a' e, logRec a r = (a', e) → ∀ o, o < a.length → a'.mem o = a.mem o) := by
  obtain ⟨hc, hl, hlc, -, -⟩ := logAll_spec rs (emptyArena cap) a (Nat.zero_le _) h
  have hcap : a.capacity = cap := by simpa [emptyArena] using hc
  have hlen : a.length = sumSizes rs := by simpa [emptyArena] using hl
  refine ⟨hcap, hlc, ?_, ?_, ?_⟩
  · intro p hp
    have := chunks_contained rs 0 p hp
    omega
  · intro r
    unfold logRec
    by_cases hfit : a.length + r.size ≤ a.capacity
    · rw [if_pos hfit]
    · rw [if_neg hfit]
  · intro r a' e hlog o ho
    unfold logRec at hlog
    by_cases hfit : a.length + r.size ≤ a.capacity
    · rw [if_pos hfit] at hlog
      injection hlog with h1 _
      subst h1
      show (if o = a.length then some r else a.mem o) = a.mem o
      rw [if_neg (by omega)]
    · rw [if_neg hfit] at hlog
      injection hlog with h1 _
      subst h1
      rfl

/-- Witness for C6 at a concrete two-record arena. -/
theorem claim_C6_witness :
    ((buildArena 64 [⟨"a %d", [Tok.vInt 1]⟩, ⟨"b", []⟩]).getD (emptyArena 64)).capacity = 64 ∧
    ((buildArena 64 [⟨"a %d", [Tok.vInt 1]⟩, ⟨"b", []⟩]).getD (emptyArena 64)).length ≤
      ((buildArena 64 [⟨"a %d", [Tok.vInt 1]⟩, ⟨"b", []⟩]).getD (emptyArena 64)).capacity :=
  ⟨(claim_C6 64 [⟨"a %d", [Tok.vInt 1]⟩, ⟨"b", []⟩] _ rfl).1,
   (claim_C6 64 [⟨"a %d", [Tok.vInt 1]⟩, ⟨"b", []⟩] _ rfl).2.1⟩

/-- C9: the `static_assert` in `log` enforces, under the enabled
destruction-skip policy (`bSKIP_DESTRUCTION = true`), that every element type
of a record's stored tuple is trivially destructible; under that policy the
destructor tears down no record (the storage is dropped as raw bytes), and
with the policy disabled it falls back to explicit per-record teardown in
iteration (arena-destruction) order. -/
theorem claim_C9 (r : Rec)
    (hassert : logStaticAssert bSKIP_DESTRUCTION r.tokenTypes = true) :
    (∀ ty ∈ r.tokenTypes, ty.trivially_destructible = true) ∧
    (∀ a : Arena, destructorTeardown bSKIP_DESTRUCTION a = some []) ∧
    (∀ a : Arena, destructorTeardown false a = arenaRecords a) := by
  refine ⟨?_, fun a => rfl, fun a => rfl⟩
  intro ty hty
  simp only [logStaticAssert, bSKIP_DESTRUCTION, Bool.not_true, Bool.false_or,
    List.all_eq_true] at hassert
  exact hassert ty hty

/-- Witness for C9: a concrete record whose tuple passes the assertion. -/
theorem claim_C9_witness :
    TokTy.trivially_destructible TokTy.tInt = true ∧
    destructorTeardown bSKIP_DESTRUCTION (emptyArena 4) = some [] :=
  ⟨(claim_C9 ⟨"x", [Tok.vInt 1]⟩ (by decide)).1 TokTy.tInt (by decide),
   (claim_C9 ⟨"x", [Tok.vInt 1]⟩ (by decide)).2.1 (emptyArena 4)⟩

end DeferredPrintf
